import Mathlib

/-!
Verification of the chunked-transcription orchestration engine of the
google-speech-to-text repository, as a shallow embedding in Lean 4.

Times are modelled as rationals.  JavaScript `x || d` default-taking on
optional numeric/boolean/string fields (where `0`, `false`, `""` and
`undefined` are all falsy) is modelled explicitly by the `jsOr…`/`jsTruthy…`
helpers.  The `while (currentTime < duration)` loop of
`AudioProcessor.splitAudioIntoChunks` is embedded with an explicit fuel
parameter: a `none` result means the loop did not terminate within the given
fuel (and `splitLoop_total` below shows enough fuel always exists when
`overlap < chunkDuration`).
-/

namespace SpeechToText

/-! ## Data model (src/types.ts) -/

/-- Structure `WordInfo` from src/types.ts: a recognised word with segment times in
seconds.  Optional TS fields are `Option`s. -/
structure WordInfo where
  word : String
  startTime : ℚ
  endTime : ℚ
  confidence : Option ℚ := none
  speakerTag : Option ℕ := none
deriving DecidableEq, Repr

/-- Structure `Alternative` from src/types.ts. -/
structure Alternative where
  transcript : String
  confidence : Option ℚ := none
  words : List WordInfo := []
deriving DecidableEq, Repr

/-- Structure `TranscriptionResult` from src/types.ts.  The TS field `words?: WordInfo[]`
is modelled as a plain list (`[]` for absent): every producer in the code sets
it, and the only consumer guard `if (result.words)` treats an absent list
exactly like an empty one. -/
structure TranscriptionResult where
  transcript : String
  words : List WordInfo := []
  alternatives : List Alternative := []
  languageCode : Option String := none
  confidence : Option ℚ := none
deriving DecidableEq, Repr

/-- Structure `AudioChunk` from src/types.ts (the raw `buffer` payload is irrelevant to
the orchestration logic and omitted). -/
structure AudioChunk where
  startTime : ℚ
  endTime : ℚ
  index : ℕ
deriving DecidableEq, Repr

/-- Structure `ProcessingOptions` as actually used by the code (src/types.ts plus the
`maxConcurrentChunks` / `retryFailedChunks` / `maxRetries` properties read by
`Transcriber.transcribeChunks` and `retryFailedChunks`).  Every field is
optional, mirroring the TS interface. -/
structure ProcessingOptions where
  chunkDuration : Option ℚ := none
  overlap : Option ℚ := none
  maxConcurrentChunks : Option ℕ := none
  retryFailedChunks : Option Bool := none
  maxRetries : Option ℕ := none
  outputFormat : Option String := none
  outputPath : Option String := none
  tempDir : Option String := none
  verbose : Option Bool := none
deriving DecidableEq, Repr

/-! ## JavaScript truthiness helpers -/

/-- JS `x || d` on an optional natural: `undefined` and `0` are falsy. -/
def jsOrNat : Option ℕ → ℕ → ℕ
  | none, d => d
  | some v, d => if v = 0 then d else v

/-- JS `x || d` on an optional rational: `undefined` and `0` are falsy. -/
def jsOrQ : Option ℚ → ℚ → ℚ
  | none, d => d
  | some v, d => if v = 0 then d else v

/-- JS truthiness of an optional number. -/
def jsTruthyQ : Option ℚ → Bool
  | none => false
  | some v => v ≠ 0

/-- JS truthiness of an optional boolean. -/
def jsTruthyBool : Option Bool → Bool
  | none => false
  | some b => b

/-- JS truthiness of an optional string: `undefined` and `""` are falsy. -/
def jsTruthyStr : Option String → Bool
  | none => false
  | some s => s ≠ ""

/-- JS object spread `{ ...base, ...override }` on one optional field: the
override wins whenever it is present. -/
def jsSpread : Option α → Option α → Option α
  | base, none => base
  | _, some v => some v

/-! ## Segmenter (`AudioProcessor.splitAudioIntoChunks`, src/utils/audio.ts
lines 81–114) -/

/-- The `while (currentTime < duration)` loop body of `splitAudioIntoChunks`:

    while (currentTime < duration) {
      const startTime = Math.max(0, currentTime - overlap);
      const chunkLength = Math.min(chunkDuration, duration - startTime);
      chunks.push({ buffer, startTime, endTime: startTime + chunkLength,
                    index: chunkIndex });
      currentTime += chunkDuration - overlap;
      chunkIndex++;
    }

`fuel` bounds the number of iterations; `none` means the loop was still
running when the fuel ran out. -/
def splitLoop (duration chunkDuration overlap : ℚ) :
    ℕ → ℚ → ℕ → Option (List AudioChunk)
  | 0, currentTime, _ =>
    if currentTime < duration then none else some []
  | fuel + 1, currentTime, chunkIndex =>
    if currentTime < duration then
      let startTime := max 0 (currentTime - overlap)
      let chunkLength := min chunkDuration (duration - startTime)
      match splitLoop duration chunkDuration overlap fuel
          (currentTime + (chunkDuration - overlap)) (chunkIndex + 1) with
      | none => none
      | some rest =>
        some ({ startTime := startTime, endTime := startTime + chunkLength,
                index := chunkIndex } :: rest)
    else some []

/-- Embedding of `splitAudioIntoChunks(audioPath, chunkDuration = 59, overlap = 1)`:
the cursor starts at `0` with chunk index `0`.  The probed `duration` of the
audio file is passed explicitly. -/
def splitAudioIntoChunks (duration : ℚ) (chunkDuration : ℚ := 59)
    (overlap : ℚ := 1) (fuel : ℕ) : Option (List AudioChunk) :=
  splitLoop duration chunkDuration overlap fuel 0 0

/-! ## Google Speech provider (src/providers/google-speech.ts) -/

/-- A protobuf duration `{ seconds, nanos }` as it appears in a Google
Speech API response. -/
structure GoogleTime where
  seconds : Option ℤ := none
  nanos : Option ℤ := none
deriving DecidableEq, Repr

/-- Embedding of `timeToSeconds` (google-speech.ts lines 221–224):
`if (!time) return 0; return Number(time.seconds || 0) + Number(time.nanos || 0) / 1e9`. -/
def timeToSeconds : Option GoogleTime → ℚ
  | none => 0
  | some t => (t.seconds.getD 0 : ℚ) + (t.nanos.getD 0 : ℚ) / 1000000000

/-- A word entry of a Google Speech API response. -/
structure GoogleWord where
  word : String
  startTime : Option GoogleTime := none
  endTime : Option GoogleTime := none
  confidence : Option ℚ := none
  speakerTag : Option ℕ := none
deriving DecidableEq, Repr

/-- An alternative entry of a Google Speech API response. -/
structure GoogleAlternative where
  transcript : Option String := none
  confidence : Option ℚ := none
  words : Option (List GoogleWord) := none
deriving DecidableEq, Repr

/-- A result entry of a Google Speech API response. -/
structure GoogleResult where
  alternatives : Option (List GoogleAlternative) := none
  languageCode : Option String := none
deriving DecidableEq, Repr

/-- A Google Speech API `recognize` response. -/
structure GoogleResponse where
  results : Option (List GoogleResult) := none
deriving DecidableEq, Repr

/-- Embedding of `GoogleSpeechProvider.processResponse` (google-speech.ts lines 156–215):
parses the raw response into a `TranscriptionResult` with segment-relative
word times. -/
def googleProcessResponse (response : GoogleResponse) : TranscriptionResult :=
  match response.results.getD [] with
  | [] => { transcript := "", words := [], alternatives := [] }
  | primaryResult :: restResults =>
    let primaryAlternative :=
      ((primaryResult.alternatives.getD []).head?).getD {}
    let words := (primaryAlternative.words.getD []).map (fun w =>
      { word := w.word,
        startTime := timeToSeconds w.startTime,
        endTime := timeToSeconds w.endTime,
        confidence := w.confidence,
        speakerTag := w.speakerTag })
    let alternatives :=
      ((primaryResult.alternatives.getD []).drop 1).map (fun alt =>
        { transcript := alt.transcript.getD "",
          confidence := alt.confidence,
          words := (alt.words.getD []).map (fun w =>
            { word := w.word,
              startTime := timeToSeconds w.startTime,
              endTime := timeToSeconds w.endTime,
              confidence := w.confidence }) })
    let fullTranscript := (String.intercalate " "
      ((primaryResult :: restResults).map (fun r =>
        (((r.alternatives.getD []).head?.bind
          (fun a => a.transcript)).getD "")))).trim
    { transcript := fullTranscript,
      words := words,
      alternatives := alternatives,
      confidence := primaryAlternative.confidence,
      languageCode := primaryResult.languageCode }

/-- Embedding of `GoogleSpeechProvider.transcribeChunk` (google-speech.ts lines 50–79),
with the remote call's successful response supplied as an oracle: parses the
response and then adjusts every word timestamp by the chunk offset
(`// Adjust timestamps based on chunk offset`). -/
def googleTranscribeChunk (chunk : AudioChunk) (response : GoogleResponse) :
    TranscriptionResult :=
  let result := googleProcessResponse response
  { result with
    words := result.words.map (fun word =>
      { word with
        startTime := word.startTime + chunk.startTime,
        endTime := word.endTime + chunk.startTime }) }

/-! ## Vertex AI provider (src/providers/vertex-ai.ts) -/

/-- A word struct of a Vertex AI prediction; `getNumberValue`/`getStringValue`
defaults (`|| 0`, `|| ''`) are applied at the use sites. -/
structure VertexWord where
  word : Option String := none
  startTime : Option ℚ := none
  endTime : Option ℚ := none
  confidence : Option ℚ := none
  speakerTag : Option ℕ := none
deriving DecidableEq, Repr

/-- An alternative struct of a Vertex AI prediction. -/
structure VertexAlt where
  transcript : Option String := none
  confidence : Option ℚ := none
deriving DecidableEq, Repr

/-- The struct fields of a Vertex AI prediction. -/
structure VertexFields where
  transcript : Option String := none
  confidence : Option ℚ := none
  words : Option (List VertexWord) := none
  alternatives : Option (List VertexAlt) := none
  languageCode : Option String := none
deriving DecidableEq, Repr

/-- A Vertex AI prediction (its `structValue.fields`). -/
structure VertexPrediction where
  fields : VertexFields
deriving DecidableEq, Repr

/-- A Vertex AI `predict` response. -/
structure VertexResponse where
  predictions : Option (List VertexPrediction) := none
deriving DecidableEq, Repr

/-- Embedding of `VertexAISpeechProvider.processResponse` (vertex-ai.ts lines 153–207):
`getStringValue` is `field || ''`, `getNumberValue` is `field || 0`,
`getListValue` is `field || []`. -/
def vertexProcessResponse (response : VertexResponse) : TranscriptionResult :=
  match response.predictions.getD [] with
  | [] => { transcript := "", words := [], alternatives := [] }
  | prediction :: _ =>
    let fields := prediction.fields
    let words := (fields.words.getD []).map (fun w =>
      { word := w.word.getD "",
        startTime := w.startTime.getD 0,
        endTime := w.endTime.getD 0,
        confidence := some (w.confidence.getD 0),
        speakerTag := some (w.speakerTag.getD 0) })
    let alternativesArray := fields.alternatives.getD []
    let alternatives :=
      if 1 < alternativesArray.length then
        (alternativesArray.drop 1).map (fun alt =>
          { transcript := alt.transcript.getD "",
            confidence := some (alt.confidence.getD 0) })
      else []
    { transcript := fields.transcript.getD "",
      words := words,
      alternatives := alternatives,
      confidence := some (fields.confidence.getD 0),
      languageCode := some (fields.languageCode.getD "") }

/-- Embedding of `VertexAISpeechProvider.transcribeChunk` (vertex-ai.ts lines 66–103):
parses the response and then adjusts every word timestamp by the chunk
offset, exactly like the Google provider. -/
def vertexTranscribeChunk (chunk : AudioChunk) (response : VertexResponse) :
    TranscriptionResult :=
  let result := vertexProcessResponse response
  { result with
    words := result.words.map (fun word =>
      { word with
        startTime := word.startTime + chunk.startTime,
        endTime := word.endTime + chunk.startTime }) }

/-! ## Merger (`Transcriber.mergeResults`, google-speech.ts lines 473–515 of
the combined file, i.e. transcriber.ts) -/

/-- One iteration of the `for (const result of results)` loop of
`mergeResults`, acting on the accumulator
`(mergedResult, totalConfidence, confidenceCount)`.  Field by field:
transcript concatenation with a single-space separator skipping empty
transcripts; unconditional word append; confidence accumulation guarded by
JS truthiness (`if (result.confidence)`); first truthy language code wins. -/
def mergeStep (acc : TranscriptionResult × ℚ × ℕ)
    (result : TranscriptionResult) : TranscriptionResult × ℚ × ℕ :=
  ({ transcript :=
       if result.transcript ≠ "" then
         acc.1.transcript ++
           (if acc.1.transcript ≠ "" then " " else "") ++ result.transcript
       else acc.1.transcript,
     words := acc.1.words ++ result.words,
     alternatives := acc.1.alternatives,
     languageCode :=
       if !(jsTruthyStr acc.1.languageCode) &&
           jsTruthyStr result.languageCode then
         result.languageCode
       else acc.1.languageCode,
     confidence := acc.1.confidence },
   (if jsTruthyQ result.confidence then
      acc.2.1 + result.confidence.getD 0
    else acc.2.1,
    if jsTruthyQ result.confidence then acc.2.2 + 1 else acc.2.2))

/-- Embedding of `mergedResult.words!.sort((a, b) => a.startTime - b.startTime)`:
a stable ascending sort on `startTime`. -/
def sortWordsByStartTime (words : List WordInfo) : List WordInfo :=
  words.mergeSort (fun a b => decide (a.startTime ≤ b.startTime))

/-- The `mergedResult` literal `mergeResults` starts from:
`{transcript: '', words: [], alternatives: [], confidence: 0}`. -/
def mergeInit : TranscriptionResult :=
  { transcript := "", words := [], alternatives := [], confidence := some 0 }

/-- Embedding of `Transcriber.mergeResults`: accumulator initialised to `mergeInit` with
`totalConfidence = 0` and `confidenceCount = 0`, the loop above, the
average-confidence fixup (only when `confidenceCount > 0`), and the final
sort of the word list. -/
def mergeResults (results : List TranscriptionResult) : TranscriptionResult :=
  let acc := results.foldl mergeStep (mergeInit, 0, 0)
  let m := acc.1
  let m := if 0 < acc.2.2 then
      { m with confidence := some (acc.2.1 / (acc.2.2 : ℚ)) }
    else m
  { m with words := sortWordsByStartTime m.words }

/-! ## Bounded dispatcher and retry coordinator
(`Transcriber.transcribeChunks` / `Transcriber.retryFailedChunks`) -/

/-- Errors the pipeline can raise. -/
inductive TranscribeError where
  | allChunksFailed
  | providerFailed
deriving DecidableEq, Repr

/-- The index batches visited by
`for (let i = 0; i < n; i += maxConcurrent)` with
`batch = chunks.slice(i, min(i + maxConcurrent, n))`.  The `0 < mc` guard is
unreachable in the pipeline: `maxConcurrent = options.maxConcurrentChunks || 3`
is always positive. -/
def batchIndicesGo (n mc : ℕ) (i : ℕ) : List (List ℕ) :=
  if h : i < n ∧ 0 < mc then
    List.range' i (min mc (n - i)) :: batchIndicesGo n mc (i + mc)
  else []
termination_by n - i
decreasing_by
  exact Nat.sub_lt_sub_left h.1 (Nat.lt_add_of_pos_right h.2)

/-- All batches, starting at index 0. -/
def batchIndices (n mc : ℕ) : List (List ℕ) := batchIndicesGo n mc 0

/-- The batched dispatch sweep of `transcribeChunks` (lines 376–415):
`attemptOutcome i` is the outcome of `provider.transcribeChunk` on chunk `i`
(`none` = the promise rejected).  Per batch, each settled outcome is stored
at its own index (`results[index] = result`) and every rejection pushes its
index onto `failedChunks`.  Batching bounds in-flight concurrency only; it
does not change the stored outcomes. -/
def dispatchChunks (attemptOutcome : ℕ → Option TranscriptionResult)
    (n mc : ℕ) : List (Option TranscriptionResult) × List ℕ :=
  (batchIndices n mc).foldl (fun acc batch =>
      (batch.foldl (fun res i => res.set i (attemptOutcome i)) acc.1,
       acc.2 ++ batch.filter (fun i => (attemptOutcome i).isNone)))
    (List.replicate n none, [])

/-- The `while (retryCount < maxRetries && !success)` loop of
`retryFailedChunks` for one chunk: `attemptAt k` is the outcome of retry
attempt number `k` (zero-based, i.e. of code attempt `retryCount = k`).
Returns the first success (if any within the remaining budget) together with
the number of attempts actually made. -/
def retryGo (attemptAt : ℕ → Option TranscriptionResult) :
    ℕ → ℕ → Option TranscriptionResult × ℕ
  | _, 0 => (none, 0)
  | retryCount, remaining + 1 =>
    match attemptAt retryCount with
    | some result => (some result, 1)
    | none =>
      let next := retryGo attemptAt (retryCount + 1) remaining
      (next.1, next.2 + 1)

/-- The full retry loop for one chunk: starts at `retryCount = 0` with
budget `maxRetries`. -/
def retryChunk (attemptAt : ℕ → Option TranscriptionResult)
    (maxRetries : ℕ) : Option TranscriptionResult × ℕ :=
  retryGo attemptAt 0 maxRetries

/-- Embedding of `Transcriber.retryFailedChunks` (lines 437–471): for each failed index
in order, runs the retry loop (`maxRetries = options.maxRetries || 3`);
a success writes `results[chunkIndex] = result`, exhaustion leaves the slot
untouched; every thrown error is caught inside the loop, so the pass itself
is total.  Retry attempt `k` of chunk `i` consumes oracle entry
`attempt i (k + 1)` — entry 0 is the initial dispatch attempt. -/
def retryFailedChunks (attempt : ℕ → ℕ → Option TranscriptionResult)
    (failedIndices : List ℕ) (results : List (Option TranscriptionResult))
    (options : ProcessingOptions) : List (Option TranscriptionResult) :=
  let maxRetries := jsOrNat options.maxRetries 3
  failedIndices.foldl (fun res chunkIndex =>
    match (retryChunk (fun k => attempt chunkIndex (k + 1)) maxRetries).1 with
    | some result => res.set chunkIndex (some result)
    | none => res) results

/-- Embedding of `Transcriber.transcribeChunks` (lines 361–435).  Crucially, its options
come from `this.config.getProcessingOptions()` — the process-wide `Config`
singleton — not from the `processingOptions` argument of `transcribeFile`:
`maxConcurrent = options.maxConcurrentChunks || 3`, the retry pass runs only
when `options.retryFailedChunks` is truthy, and if no chunk result is
present the call throws `'All chunks failed to transcribe'`. -/
def transcribeChunks (attempt : ℕ → ℕ → Option TranscriptionResult)
    (singleton : ProcessingOptions) (chunks : List AudioChunk) :
    Except TranscribeError TranscriptionResult :=
  let options := singleton
  let maxConcurrent := jsOrNat options.maxConcurrentChunks 3
  let dispatched := dispatchChunks (fun i => attempt i 0) chunks.length
    maxConcurrent
  let failedChunks := dispatched.2
  let results :=
    if jsTruthyBool options.retryFailedChunks && !failedChunks.isEmpty then
      retryFailedChunks attempt failedChunks dispatched.1 options
    else dispatched.1
  let validResults := results.filterMap id
  if validResults.isEmpty then
    Except.error TranscribeError.allChunksFailed
  else
    Except.ok (mergeResults validResults)

/-! ## Pipeline entry point (`Transcriber.transcribeFile`) and configuration -/

/-- Embedding of `Config.loadDefaultProcessingOptions` (config.ts lines 40–48): the
singleton's initial state.  `maxConcurrentChunks`, `retryFailedChunks` and
`maxRetries` are NOT set there. -/
def defaultProcessingOptions : ProcessingOptions :=
  { chunkDuration := some 59,
    overlap := some 1,
    outputFormat := none,
    tempDir := some ".temp",
    verbose := some false }

/-- Embedding of the spread `{ ...this.config.getProcessingOptions(), ...processingOptions }`
(transcribeFile line 291): the argument's fields override the singleton's
wherever present. -/
def mergeProcessingOptions (base arg : ProcessingOptions) :
    ProcessingOptions :=
  { chunkDuration := jsSpread base.chunkDuration arg.chunkDuration,
    overlap := jsSpread base.overlap arg.overlap,
    maxConcurrentChunks :=
      jsSpread base.maxConcurrentChunks arg.maxConcurrentChunks,
    retryFailedChunks := jsSpread base.retryFailedChunks arg.retryFailedChunks,
    maxRetries := jsSpread base.maxRetries arg.maxRetries,
    outputFormat := jsSpread base.outputFormat arg.outputFormat,
    outputPath := jsSpread base.outputPath arg.outputPath,
    tempDir := jsSpread base.tempDir arg.tempDir,
    verbose := jsSpread base.verbose arg.verbose }

/-- Embedding of `Transcriber.transcribeFile` (lines 286–359), with the external
collaborators as oracles: `duration` is the probed audio duration,
`wholeOutcome` the outcome of the short-audio `provider.transcribe` call,
`attempt` the per-chunk per-attempt outcomes, `fuel` the loop bound of the
segmenter (`none` overall = the splitting loop did not terminate).

The merged `options` govern the chunking decision
(`duration > (options.chunkDuration || 59)`), the parameters handed to
`splitAudioIntoChunks`, and output writing; but `transcribeChunks` reads the
singleton.  On success with `options.outputPath` truthy, `saveOutput` writes
one file (recorded as a `(path, result)` pair); on error the exception
propagates after cleanup and nothing is written. -/
def transcribeFile (singleton processingOptions : ProcessingOptions)
    (duration : ℚ) (wholeOutcome : Option TranscriptionResult)
    (attempt : ℕ → ℕ → Option TranscriptionResult) (fuel : ℕ) :
    Option (Except TranscribeError TranscriptionResult ×
      List (String × TranscriptionResult)) :=
  let options := mergeProcessingOptions singleton processingOptions
  let run : Option (Except TranscribeError TranscriptionResult) :=
    if jsOrQ options.chunkDuration 59 < duration then
      match splitAudioIntoChunks duration (options.chunkDuration.getD 59)
          (options.overlap.getD 1) fuel with
      | none => none
      | some chunks => some (transcribeChunks attempt singleton chunks)
    else
      match wholeOutcome with
      | some r => some (Except.ok r)
      | none => some (Except.error TranscribeError.providerFailed)
  match run with
  | none => none
  | some (Except.error e) => some (Except.error e, [])
  | some (Except.ok result) =>
    some (Except.ok result,
      if jsTruthyStr options.outputPath then
        [(options.outputPath.getD "", result)]
      else [])

/-! ## Spec-side definition and concrete counterexample inputs -/

/-- Modelled from the spec (§4.5): “Confidence is the arithmetic mean over
segments that reported a confidence value; segments without one are excluded
from both numerator and denominator; if no segment reports confidence, the
merged value is absent/zero.”  Used only to compare the spec's confidence
rule with the code's. -/
def specMeanConfidence (results : List TranscriptionResult) : Option ℚ :=
  let cs := results.filterMap TranscriptionResult.confidence
  if cs.isEmpty then none else some (cs.sum / (cs.length : ℚ))

/-- A one-word Google response: word "hi" at segment-relative seconds 2–3. -/
def cexResponse : GoogleResponse :=
  { results := some [{
      alternatives := some [{
        transcript := some "hi",
        confidence := some (9/10),
        words := some [{
          word := "hi",
          startTime := some { seconds := some 2 },
          endTime := some { seconds := some 3 } }] }],
      languageCode := some "en-US" }] }

/-- Segment results where one segment reports confidence `0` and another
confidence `4/5`. -/
def cexC10Results : List TranscriptionResult :=
  [{ transcript := "a", confidence := some 0 },
   { transcript := "b", confidence := some (4/5) }]

/-- Enough fuel always makes the loop terminate when `overlap < chunkDuration`. -/
theorem splitLoop_total (duration cd ov : ℚ) :
    ∀ (fuel : ℕ) (t : ℚ) (idx : ℕ), duration ≤ t + fuel * (cd - ov) →
      (splitLoop duration cd ov fuel t idx).isSome := by
  intro fuel
  induction fuel with
  | zero =>
    intro t idx h
    simp only [splitLoop]
    have : ¬ t < duration := by push_cast at h; linarith
    simp [this]
  | succ n ih =>
    intro t idx h
    simp only [splitLoop]
    by_cases ht : t < duration
    · have hrec : duration ≤ (t + (cd - ov)) + n * (cd - ov) := by
        push_cast at h ⊢; linarith
      have := ih (t + (cd - ov)) (idx + 1) hrec
      simp only [ht, if_true]
      cases hs : splitLoop duration cd ov n (t + (cd - ov)) (idx + 1) with
      | none => rw [hs] at this; simp at this
      | some rest => simp
    · simp [ht]

/-- Once the cursor has reached the duration the loop produces nothing more. -/
theorem splitLoop_of_not_lt (d cd ov : ℚ) (fuel : ℕ) (t : ℚ) (idx : ℕ)
    (h : ¬ t < d) : splitLoop d cd ov fuel t idx = some [] := by
  cases fuel <;> simp [splitLoop, h]

/-- Conversely, a run that returns the empty chunk list never entered the
loop body. -/
theorem splitLoop_eq_nil (d cd ov : ℚ) (fuel : ℕ) (t : ℚ) (idx : ℕ)
    (h : splitLoop d cd ov fuel t idx = some []) : ¬ t < d := by
  intro ht
  cases fuel with
  | zero => simp [splitLoop, ht] at h
  | succ n =>
    simp only [splitLoop, if_pos ht] at h
    cases hrest : splitLoop d cd ov n (t + (cd - ov)) (idx + 1) with
    | none => rw [hrest] at h; exact absurd h (by simp)
    | some rest => rw [hrest] at h; simp at h

/-- Every produced chunk lies inside `[0, duration]` and has strictly
positive length. -/
theorem splitLoop_bounds (d cd ov : ℚ) (hov : 0 ≤ ov) (hcd : ov < cd) :
    ∀ (fuel : ℕ) (t : ℚ) (idx : ℕ) (L : List AudioChunk), 0 ≤ t →
      splitLoop d cd ov fuel t idx = some L →
      ∀ c ∈ L, 0 ≤ c.startTime ∧ c.startTime < c.endTime ∧ c.endTime ≤ d := by
  intro fuel
  induction fuel with
  | zero =>
    intro t idx L ht0 h c hc
    by_cases ht : t < d
    · simp [splitLoop, ht] at h
    · simp [splitLoop, ht] at h; subst h; simp at hc
  | succ n ih =>
    intro t idx L ht0 h c hc
    by_cases ht : t < d
    · simp only [splitLoop, if_pos ht] at h
      cases hrest : splitLoop d cd ov n (t + (cd - ov)) (idx + 1) with
      | none => rw [hrest] at h; exact absurd h (by simp)
      | some rest =>
        rw [hrest] at h
        simp only [Option.some.injEq] at h
        subst h
        rcases List.mem_cons.mp hc with hc | hc
        · subst hc
          have h0d : (0 : ℚ) < d := lt_of_le_of_lt ht0 ht
          have hsd : max 0 (t - ov) < d := max_lt h0d (by linarith)
          refine ⟨le_max_left _ _, ?_, ?_⟩
          · have : (0 : ℚ) < min cd (d - max 0 (t - ov)) :=
              lt_min (by linarith) (by linarith)
            simp only
            linarith
          · simp only
            have : min cd (d - max 0 (t - ov)) ≤ d - max 0 (t - ov) :=
              min_le_right _ _
            linarith
        · exact ih (t + (cd - ov)) (idx + 1) rest (by linarith) hrest c hc
    · rw [splitLoop_of_not_lt d cd ov _ _ _ ht] at h
      simp only [Option.some.injEq] at h
      subst h; simp at hc

/-- Coverage invariant of the split loop: starting from cursor `t`, the
produced chunks cover exactly `[max 0 (t - overlap), duration]`. -/
theorem splitLoop_cover (d cd ov : ℚ) (hov : 0 ≤ ov) (hcd : ov < cd) :
    ∀ (fuel : ℕ) (t : ℚ) (idx : ℕ) (L : List AudioChunk), 0 ≤ t → t < d →
      splitLoop d cd ov fuel t idx = some L →
      ∀ x : ℚ, (∃ c ∈ L, c.startTime ≤ x ∧ x ≤ c.endTime) ↔
        (max 0 (t - ov) ≤ x ∧ x ≤ d) := by
  intro fuel
  induction fuel with
  | zero => intro t idx L ht0 htd h; simp [splitLoop, htd] at h
  | succ n ih =>
    intro t idx L ht0 htd h x
    simp only [splitLoop, if_pos htd] at h
    cases hrest : splitLoop d cd ov n (t + (cd - ov)) (idx + 1) with
    | none => rw [hrest] at h; exact absurd h (by simp)
    | some rest =>
      rw [hrest] at h
      simp only [Option.some.injEq] at h
      subst h
      have h0d : (0 : ℚ) < d := lt_of_le_of_lt ht0 htd
      by_cases ht' : t + (cd - ov) < d
      · have hrest_cover := ih (t + (cd - ov)) (idx + 1) rest (by linarith) ht' hrest x
        have ha : max 0 (t - ov) ≤ max 0 (t + (cd - ov) - ov) :=
          max_le_max le_rfl (by linarith)
        have hab : max 0 (t + (cd - ov) - ov) ≤
            max 0 (t - ov) + min cd (d - max 0 (t - ov)) := by
          rcases max_cases (0 : ℚ) (t + (cd - ov) - ov) with ⟨he, _⟩ | ⟨he, _⟩ <;>
            rw [he]
          · have h1 : (0:ℚ) ≤ max 0 (t - ov) := le_max_left _ _
            have h2 : (0:ℚ) < min cd (d - max 0 (t - ov)) := by
              have hsd : max 0 (t - ov) < d := max_lt h0d (by linarith)
              exact lt_min (by linarith) (by linarith)
            linarith
          · have h1 : t + (cd - ov) - ov ≤ max 0 (t - ov) + cd := by
              have : t - ov ≤ max 0 (t - ov) := le_max_right _ _
              linarith
            have h2 : t + (cd - ov) - ov ≤ d := by linarith
            have := le_min h1 h2
            calc t + (cd - ov) - ov ≤ min (max 0 (t - ov) + cd) d := this
            _ = max 0 (t - ov) + min cd (d - max 0 (t - ov)) := by
                rw [← min_add_add_left]
                congr 1
                ring
        have hbd : max 0 (t - ov) + min cd (d - max 0 (t - ov)) ≤ d := by
          have : min cd (d - max 0 (t - ov)) ≤ d - max 0 (t - ov) :=
            min_le_right _ _
          linarith
        constructor
        · rintro ⟨c, hc, hcx1, hcx2⟩
          rcases List.mem_cons.mp hc with hc | hc
          · subst hc
            simp only at hcx1 hcx2
            exact ⟨hcx1, le_trans hcx2 hbd⟩
          · have := (hrest_cover.mp ⟨c, hc, hcx1, hcx2⟩)
            exact ⟨le_trans ha this.1, this.2⟩
        · rintro ⟨hx1, hx2⟩
          by_cases hxb : x ≤ max 0 (t - ov) + min cd (d - max 0 (t - ov))
          · exact ⟨_, List.mem_cons_self _ _, hx1, hxb⟩
          · push_neg at hxb
            obtain ⟨c, hc, hc1, hc2⟩ :=
              hrest_cover.mpr ⟨le_of_lt (lt_of_le_of_lt hab hxb), hx2⟩
            exact ⟨c, List.mem_cons_of_mem _ hc, hc1, hc2⟩
      · rw [splitLoop_of_not_lt d cd ov _ _ _ ht'] at hrest
        simp only [Option.some.injEq] at hrest
        subst hrest
        have hend : max 0 (t - ov) + min cd (d - max 0 (t - ov)) = d := by
          have h1 : d - max 0 (t - ov) ≤ cd := by
            have h2 : t - ov ≤ max 0 (t - ov) := le_max_right _ _
            have ht2 : d ≤ t + (cd - ov) := not_lt.mp ht'
            linarith
          rw [min_eq_right h1]
          ring
        constructor
        · rintro ⟨c, hc, hcx1, hcx2⟩
          rw [List.mem_singleton] at hc
          subst hc
          refine ⟨hcx1, ?_⟩
          rw [← hend]
          exact hcx2
        · rintro ⟨hx1, hx2⟩
          refine ⟨_, List.mem_singleton.mpr rfl, hx1, ?_⟩
          show x ≤ max 0 (t - ov) + min cd (d - max 0 (t - ov))
          rw [hend]
          exact hx2

/-- The last produced chunk always ends exactly at `duration`. -/
theorem splitLoop_getLast (d cd ov : ℚ) :
    ∀ (fuel : ℕ) (t : ℚ) (idx : ℕ) (L : List AudioChunk) (c : AudioChunk),
      t < d → splitLoop d cd ov fuel t idx = some L →
      L.getLast? = some c → c.endTime = d := by
  intro fuel
  induction fuel with
  | zero => intro t idx L c htd h; simp [splitLoop, htd] at h
  | succ n ih =>
    intro t idx L c htd h hlast
    simp only [splitLoop, if_pos htd] at h
    cases hrest : splitLoop d cd ov n (t + (cd - ov)) (idx + 1) with
    | none => rw [hrest] at h; exact absurd h (by simp)
    | some rest =>
      rw [hrest] at h
      simp only [Option.some.injEq] at h
      subst h
      cases rest with
      | nil =>
        have ht' : ¬ t + (cd - ov) < d := splitLoop_eq_nil d cd ov n _ _ hrest
        simp only [List.getLast?_singleton, Option.some.injEq] at hlast
        subst hlast
        show max 0 (t - ov) + min cd (d - max 0 (t - ov)) = d
        have h1 : d - max 0 (t - ov) ≤ cd := by
          have h2 : t - ov ≤ max 0 (t - ov) := le_max_right _ _
          have ht2 : d ≤ t + (cd - ov) := not_lt.mp ht'
          linarith
        rw [min_eq_right h1]
        ring
      | cons c' rest' =>
        have ht' : t + (cd - ov) < d := by
          by_contra hcon
          rw [splitLoop_of_not_lt d cd ov _ _ _ hcon] at hrest
          simp at hrest
        rw [List.getLast?_cons_cons] at hlast
        exact ih (t + (cd - ov)) (idx + 1) (c' :: rest') c ht' hrest hlast

/-- Under `2·overlap ≤ chunkDuration`, every two consecutive chunks produced
with cursor ≥ `overlap` overlap by exactly `overlap` seconds. -/
theorem splitLoop_consecutive (d cd ov : ℚ) (hov : 0 ≤ ov) (h2 : 2 * ov ≤ cd) :
    ∀ (fuel : ℕ) (t : ℚ) (idx : ℕ) (L : List AudioChunk), ov ≤ t →
      splitLoop d cd ov fuel t idx = some L →
      ∀ (k : ℕ) (c c' : AudioChunk), L.get? k = some c →
        L.get? (k + 1) = some c' → c.endTime - c'.startTime = ov := by
  intro fuel
  induction fuel with
  | zero =>
    intro t idx L hovt h k c c' hk hk'
    by_cases ht : t < d
    · simp [splitLoop, ht] at h
    · simp only [splitLoop, if_neg ht, Option.some.injEq] at h
      subst h; simp at hk
  | succ n ih =>
    intro t idx L hovt h k c c' hk hk'
    by_cases ht : t < d
    · simp only [splitLoop, if_pos ht] at h
      cases hrest : splitLoop d cd ov n (t + (cd - ov)) (idx + 1) with
      | none => rw [hrest] at h; exact absurd h (by simp)
      | some rest =>
        rw [hrest] at h
        simp only [Option.some.injEq] at h
        subst h
        cases k with
        | zero =>
          simp only [List.get?_cons_zero, Option.some.injEq] at hk
          subst hk
          simp only [List.get?_cons_succ, List.get?_cons_zero] at hk'
          have hne : rest ≠ [] := by
            intro hnil
            rw [hnil] at hk'
            simp at hk'
          have ht' : t + (cd - ov) < d := by
            by_contra hcon
            rw [splitLoop_of_not_lt d cd ov _ _ _ hcon] at hrest
            simp only [Option.some.injEq] at hrest
            exact hne hrest.symm
          -- head of `rest`: one unfolding of the loop at cursor t + (cd - ov)
          have hd0 : rest.get? 0 = some c' := hk'
          cases n with
          | zero => simp [splitLoop, ht'] at hrest
          | succ m =>
            simp only [splitLoop, if_pos ht'] at hrest
            cases hrest2 : splitLoop d cd ov m
                (t + (cd - ov) + (cd - ov)) (idx + 1 + 1) with
            | none => rw [hrest2] at hrest; exact absurd hrest (by simp)
            | some rest2 =>
              rw [hrest2] at hrest
              simp only [Option.some.injEq] at hrest
              subst hrest
              simp only [List.get?_cons_zero, Option.some.injEq] at hd0
              subst hd0
              have hs1 : max 0 (t - ov) = t - ov :=
                max_eq_right (by linarith)
              have hs2 : max 0 (t + (cd - ov) - ov) = t + (cd - ov) - ov :=
                max_eq_right (by linarith)
              show max 0 (t - ov) + min cd (d - max 0 (t - ov)) -
                  max 0 (t + (cd - ov) - ov) = ov
              rw [hs1, hs2]
              have hlen : min cd (d - (t - ov)) = cd :=
                min_eq_left (by linarith)
              rw [hlen]
              ring
        | succ m =>
          simp only [List.get?_cons_succ] at hk hk'
          exact ih (t + (cd - ov)) (idx + 1) rest (by linarith) hrest m c c' hk hk'
    · simp only [splitLoop, if_neg ht, Option.some.injEq] at h
      subst h; simp at hk

/-- The first chunk a run produces is determined by the cursor:
`[max 0 (t - overlap), min(start + chunkDuration, duration)]`. -/
theorem splitLoop_head (d cd ov : ℚ) (fuel : ℕ) (t : ℚ) (idx : ℕ)
    (c : AudioChunk) (rest : List AudioChunk)
    (h : splitLoop d cd ov fuel t idx = some (c :: rest)) :
    c = { startTime := max 0 (t - ov),
          endTime := max 0 (t - ov) + min cd (d - max 0 (t - ov)),
          index := idx } ∧ t < d := by
  have ht : t < d := by
    by_contra hcon
    rw [splitLoop_of_not_lt d cd ov fuel t idx hcon] at h
    simp at h
  cases fuel with
  | zero => simp [splitLoop, ht] at h
  | succ n =>
    simp only [splitLoop, if_pos ht] at h
    cases hrest : splitLoop d cd ov n (t + (cd - ov)) (idx + 1) with
    | none => rw [hrest] at h; exact absurd h (by simp)
    | some rest' =>
      rw [hrest] at h
      simp only [Option.some.injEq, List.cons.injEq] at h
      exact ⟨h.1.symm, ht⟩

/-- The tail of a run is the run restarted at the advanced cursor. -/
theorem splitLoop_tail (d cd ov : ℚ) (fuel : ℕ) (t : ℚ) (idx : ℕ)
    (c : AudioChunk) (rest : List AudioChunk)
    (h : splitLoop d cd ov fuel t idx = some (c :: rest)) :
    ∃ m, fuel = m + 1 ∧
      splitLoop d cd ov m (t + (cd - ov)) (idx + 1) = some rest := by
  have ht : t < d := (splitLoop_head d cd ov fuel t idx c rest h).2
  cases fuel with
  | zero => simp [splitLoop, ht] at h
  | succ n =>
    refine ⟨n, rfl, ?_⟩
    simp only [splitLoop, if_pos ht] at h
    cases hrest : splitLoop d cd ov n (t + (cd - ov)) (idx + 1) with
    | none => rw [hrest] at h; exact absurd h (by simp)
    | some rest' =>
      rw [hrest] at h
      simp only [Option.some.injEq, List.cons.injEq] at h
      rw [h.2]

/-- Claim C2: for every `totalDuration > 0` and `chunkLength > overlap ≥ 0`,
the union of the `[startTime, endTime]` intervals of the chunks produced by
`splitAudioIntoChunks` equals `[0, totalDuration]` with no gaps, and every
chunk has strictly positive length. -/
theorem claim_C2_coverage (d cd ov : ℚ) (fuel : ℕ) (chunks : List AudioChunk)
    (hd : 0 < d) (hov : 0 ≤ ov) (hcd : ov < cd)
    (h : splitAudioIntoChunks d cd ov fuel = some chunks) :
    (∀ x : ℚ, (∃ c ∈ chunks, c.startTime ≤ x ∧ x ≤ c.endTime) ↔
      0 ≤ x ∧ x ≤ d) ∧
    ∀ c ∈ chunks, c.startTime < c.endTime := by
  unfold splitAudioIntoChunks at h
  constructor
  · intro x
    have hcov := splitLoop_cover d cd ov hov hcd fuel 0 0 chunks le_rfl hd h x
    rwa [show max 0 ((0:ℚ) - ov) = 0 from max_eq_left (by linarith)] at hcov
  · intro c hc
    exact (splitLoop_bounds d cd ov hov hcd fuel 0 0 chunks le_rfl h c hc).2.1

/-- Witness for C2 at duration 2, chunkDuration 59, overlap 1. -/
theorem claim_C2_coverage_witness :
    (∀ x : ℚ, (∃ c ∈ [({ startTime := 0, endTime := 2, index := 0 } :
        AudioChunk)], c.startTime ≤ x ∧ x ≤ c.endTime) ↔ 0 ≤ x ∧ x ≤ 2) ∧
    ∀ c ∈ [({ startTime := 0, endTime := 2, index := 0 } : AudioChunk)],
      c.startTime < c.endTime :=
  claim_C2_coverage 2 59 1 1 _ (by norm_num) (by norm_num) (by norm_num)
    (by norm_num [splitAudioIntoChunks, splitLoop])

/-- If the parameters make the loop step nonpositive the split loop runs out
of any amount of fuel: the real `while` loop never terminates. -/
theorem splitLoop_diverges (d cd ov : ℚ) (hd : 0 < d) (hstep : cd - ov ≤ 0) :
    ∀ (fuel : ℕ) (t : ℚ) (idx : ℕ), t ≤ 0 →
      splitLoop d cd ov fuel t idx = none := by
  intro fuel
  induction fuel with
  | zero => intro t idx ht; simp [splitLoop, lt_of_le_of_lt ht hd]
  | succ n ih =>
    intro t idx ht
    have ht2 : t < d := lt_of_le_of_lt ht hd
    simp [splitLoop, if_pos ht2, ih (t + (cd - ov)) (idx + 1) (by linarith)]

/-- Counterexample to claim C5: on the invalid input `totalDuration = 0`
`splitAudioIntoChunks` does not fail with `InvalidParameters` — it succeeds
and returns an empty chunk list. -/
theorem claim_C5_counterexample :
    splitAudioIntoChunks 0 59 1 1 = some [] := by
  norm_num [splitAudioIntoChunks, splitLoop]

/-- Claim C5 amended: `splitAudioIntoChunks` performs no parameter
validation and has no `InvalidParameters` failure.  For `totalDuration ≤ 0`
it returns an empty chunk list without error; for `totalDuration > 0` and
`chunkLength ≤ overlap` its extraction loop never terminates (it exceeds
every fuel bound). -/
theorem claim_C5_no_validation :
    (∀ (d cd ov : ℚ) (fuel : ℕ), d ≤ 0 →
      splitAudioIntoChunks d cd ov fuel = some []) ∧
    (∀ (d cd ov : ℚ) (fuel : ℕ), 0 < d → cd ≤ ov →
      splitAudioIntoChunks d cd ov fuel = none) := by
  constructor
  · intro d cd ov fuel hd
    exact splitLoop_of_not_lt d cd ov fuel 0 0 (by linarith)
  · intro d cd ov fuel hd hcd
    exact splitLoop_diverges d cd ov hd (by linarith) fuel 0 0 le_rfl

/-- Witness for the amended C5 at concrete invalid inputs. -/
theorem claim_C5_no_validation_witness :
    splitAudioIntoChunks 0 59 1 3 = some [] ∧
    splitAudioIntoChunks 1 1 1 5 = none :=
  ⟨claim_C5_no_validation.1 0 59 1 3 le_rfl,
   claim_C5_no_validation.2 1 1 1 5 one_pos le_rfl⟩

/-- Counterexample to claim C6: with `totalDuration = 3/2`,
`chunkLength = 2`, `overlap = 1` we have `0 < totalDuration ≤ chunkLength`
and `chunkLength > overlap ≥ 0`, yet the segmenter produces two chunks, not
exactly one. -/
theorem claim_C6_counterexample :
    (0:ℚ) < 3/2 ∧ (3/2:ℚ) ≤ 2 ∧ (0:ℚ) ≤ 1 ∧ (1:ℚ) < 2 ∧
    (splitAudioIntoChunks (3/2) 2 1 2).map List.length = some 2 ∧
    (2:ℕ) ≠ 1 :=
  ⟨by norm_num, by norm_num, by norm_num, by norm_num,
   by norm_num [splitAudioIntoChunks, splitLoop], by norm_num⟩

/-- Claim C6 amended: a single whole-range chunk is produced exactly when
`totalDuration ≤ chunkLength − overlap` (not whenever
`totalDuration ≤ chunkLength`: for
`chunkLength − overlap < totalDuration ≤ chunkLength` the loop runs again and
emits more than one chunk). -/
theorem claim_C6_single_chunk (d cd ov : ℚ) (fuel : ℕ)
    (chunks : List AudioChunk) (hd : 0 < d) (hle : d ≤ cd - ov)
    (hov : 0 ≤ ov) (h : splitAudioIntoChunks d cd ov fuel = some chunks) :
    chunks = [{ startTime := 0, endTime := d, index := 0 }] := by
  unfold splitAudioIntoChunks at h
  cases fuel with
  | zero => simp [splitLoop, hd] at h
  | succ n =>
    simp only [splitLoop, if_pos hd] at h
    rw [splitLoop_of_not_lt d cd ov n (0 + (cd - ov)) 1 (by linarith)] at h
    simp only [Option.some.injEq] at h
    subst h
    have hs : max 0 ((0:ℚ) - ov) = 0 := max_eq_left (by linarith)
    rw [hs]
    have hm : min cd (d - (0:ℚ)) = d := by
      rw [sub_zero]
      exact min_eq_right (by linarith)
    rw [hm, zero_add]

/-- Witness for the amended C6. -/
theorem claim_C6_single_chunk_witness :
    ([({ startTime := 0, endTime := 2, index := 0 } : AudioChunk)] :
      List AudioChunk) =
      [{ startTime := 0, endTime := 2, index := 0 }] :=
  claim_C6_single_chunk 2 59 1 1 _ (by norm_num) (by norm_num) (by norm_num)
    (by norm_num [splitAudioIntoChunks, splitLoop])

/-- Counterexample to claim C7: with duration 10, chunkLength 4, overlap 1
(a valid input) the first and second chunks are `[0,4]` and `[2,6]`: they
overlap by `2` seconds — twice the configured overlap — although the pair is
neither the first-chunk pre-overlap exception nor the clipped last chunk. -/
theorem claim_C7_counterexample :
    splitAudioIntoChunks 10 4 1 4 = some
      [{ startTime := 0, endTime := 4, index := 0 },
       { startTime := 2, endTime := 6, index := 1 },
       { startTime := 5, endTime := 9, index := 2 },
       { startTime := 8, endTime := 10, index := 3 }] ∧
    ({ startTime := 0, endTime := 4, index := 0 } : AudioChunk).endTime -
      ({ startTime := 2, endTime := 6, index := 1 } :
        AudioChunk).startTime ≠ 1 :=
  ⟨by norm_num [splitAudioIntoChunks, splitLoop], by norm_num⟩

/-- Claim C7 amended (stated for `2·overlap ≤ chunkLength`, which keeps the
`max 0` clamp of later chunk starts inactive): the first chunk starts at 0,
the last chunk ends exactly at `totalDuration`, every pair of consecutive
chunks from index 1 on overlaps by exactly `overlap` seconds, and the first
pair overlaps by `min (2·overlap) (totalDuration − chunkLength + 2·overlap)`
— i.e. `2·overlap` whenever the first chunk is not clipped. -/
theorem claim_C7_overlap (d cd ov : ℚ) (fuel : ℕ) (chunks : List AudioChunk)
    (hd : 0 < d) (hov : 0 ≤ ov) (h2 : 2 * ov ≤ cd) (_hcd : ov < cd)
    (h : splitAudioIntoChunks d cd ov fuel = some chunks) :
    (∀ c, chunks.get? 0 = some c → c.startTime = 0) ∧
    (∀ c, chunks.getLast? = some c → c.endTime = d) ∧
    (∀ (k : ℕ) (c c' : AudioChunk), chunks.get? (k + 1) = some c →
      chunks.get? (k + 2) = some c' → c.endTime - c'.startTime = ov) ∧
    (∀ c c', chunks.get? 0 = some c → chunks.get? 1 = some c' →
      c.endTime - c'.startTime = min (2 * ov) (d - cd + 2 * ov)) := by
  unfold splitAudioIntoChunks at h
  refine ⟨?_, ?_, ?_, ?_⟩
  · intro c hc
    cases chunks with
    | nil => simp at hc
    | cons c0 rest =>
      simp only [List.get?_cons_zero, Option.some.injEq] at hc
      subst hc
      rw [(splitLoop_head d cd ov fuel 0 0 c0 rest h).1]
      exact max_eq_left (by linarith)
  · intro c hc
    exact splitLoop_getLast d cd ov fuel 0 0 chunks c hd h hc
  · intro k c c' hk hk'
    cases chunks with
    | nil => simp at hk
    | cons c0 rest =>
      obtain ⟨m, _, hrest⟩ := splitLoop_tail d cd ov fuel 0 0 c0 rest h
      simp only [List.get?_cons_succ] at hk hk'
      exact splitLoop_consecutive d cd ov hov h2 m (0 + (cd - ov)) 1 rest
        (by linarith) hrest k c c' hk hk'
  · intro c c' hc hc'
    cases chunks with
    | nil => simp at hc
    | cons c0 rest =>
      simp only [List.get?_cons_zero, Option.some.injEq] at hc
      subst hc
      simp only [List.get?_cons_succ] at hc'
      cases rest with
      | nil => simp at hc'
      | cons c1 rest' =>
        simp only [List.get?_cons_zero, Option.some.injEq] at hc'
        subst hc'
        obtain ⟨m, _, hrest⟩ :=
          splitLoop_tail d cd ov fuel 0 0 c0 (c1 :: rest') h
        obtain ⟨hc1, ht1⟩ := splitLoop_head d cd ov m (0 + (cd - ov)) (0 + 1)
          c1 rest' hrest
        rw [(splitLoop_head d cd ov fuel 0 0 c0 (c1 :: rest') h).1, hc1]
        have hs0 : max 0 ((0:ℚ) - ov) = 0 := max_eq_left (by linarith)
        have hs1 : max 0 (0 + (cd - ov) - ov) = cd - 2 * ov :=
          (max_eq_right (by linarith)).trans (by ring)
        rw [hs0, hs1, zero_add, sub_zero]
        show min cd d - (cd - 2 * ov) = min (2 * ov) (d - cd + 2 * ov)
        rcases le_total cd d with hle | hle
        · rw [min_eq_left hle, min_eq_left (by linarith)]
          ring
        · rw [min_eq_right hle, min_eq_right (by linarith)]
          ring

/-- Witness for the amended C7 at duration 10, chunkLength 4, overlap 1. -/
theorem claim_C7_overlap_witness :
    (∀ c, ([{ startTime := 0, endTime := 4, index := 0 },
       { startTime := 2, endTime := 6, index := 1 },
       { startTime := 5, endTime := 9, index := 2 },
       { startTime := 8, endTime := 10, index := 3 }] :
         List AudioChunk).get? 0 = some c → c.startTime = 0) ∧
    (∀ c, ([{ startTime := 0, endTime := 4, index := 0 },
       { startTime := 2, endTime := 6, index := 1 },
       { startTime := 5, endTime := 9, index := 2 },
       { startTime := 8, endTime := 10, index := 3 }] :
         List AudioChunk).getLast? = some c → c.endTime = 10) ∧
    (∀ (k : ℕ) (c c' : AudioChunk),
      ([{ startTime := 0, endTime := 4, index := 0 },
       { startTime := 2, endTime := 6, index := 1 },
       { startTime := 5, endTime := 9, index := 2 },
       { startTime := 8, endTime := 10, index := 3 }] :
         List AudioChunk).get? (k + 1) = some c →
      ([{ startTime := 0, endTime := 4, index := 0 },
       { startTime := 2, endTime := 6, index := 1 },
       { startTime := 5, endTime := 9, index := 2 },
       { startTime := 8, endTime := 10, index := 3 }] :
         List AudioChunk).get? (k + 2) = some c' →
        c.endTime - c'.startTime = 1) ∧
    (∀ c c', ([{ startTime := 0, endTime := 4, index := 0 },
       { startTime := 2, endTime := 6, index := 1 },
       { startTime := 5, endTime := 9, index := 2 },
       { startTime := 8, endTime := 10, index := 3 }] :
         List AudioChunk).get? 0 = some c →
      ([{ startTime := 0, endTime := 4, index := 0 },
       { startTime := 2, endTime := 6, index := 1 },
       { startTime := 5, endTime := 9, index := 2 },
       { startTime := 8, endTime := 10, index := 3 }] :
         List AudioChunk).get? 1 = some c' →
        c.endTime - c'.startTime = min (2 * 1) (10 - 4 + 2 * 1)) :=
  claim_C7_overlap 10 4 1 4 _ (by norm_num) (by norm_num) (by norm_num)
    (by norm_num) (by norm_num [splitAudioIntoChunks, splitLoop])

/-! ### Merger lemmas and claims C3, C4, C10 -/

/-- The merge loop appends each segment's words in order. -/
theorem foldl_mergeStep_words (rs : List TranscriptionResult) :
    ∀ acc : TranscriptionResult × ℚ × ℕ,
      ((rs.foldl mergeStep acc).1).words =
        acc.1.words ++ (rs.map TranscriptionResult.words).flatten := by
  induction rs with
  | nil => intro acc; simp
  | cons r rs ih =>
    intro acc
    simp only [List.foldl_cons, List.map_cons, List.flatten_cons]
    rw [ih (mergeStep acc r)]
    show (acc.1.words ++ r.words) ++ _ = _
    rw [List.append_assoc]

/-- The merge loop never touches the accumulator's `confidence` field. -/
theorem foldl_mergeStep_confField (rs : List TranscriptionResult) :
    ∀ acc : TranscriptionResult × ℚ × ℕ,
      ((rs.foldl mergeStep acc).1).confidence = acc.1.confidence := by
  induction rs with
  | nil => intro acc; rfl
  | cons r rs ih =>
    intro acc
    rw [List.foldl_cons, ih (mergeStep acc r)]
    rfl

/-- The merge loop accumulates exactly the JS-truthy confidences: their sum
and their count. -/
theorem foldl_mergeStep_conf (rs : List TranscriptionResult) :
    ∀ acc : TranscriptionResult × ℚ × ℕ,
      (rs.foldl mergeStep acc).2 =
        (acc.2.1 + (rs.filterMap (fun r =>
           if jsTruthyQ r.confidence then r.confidence else none)).sum,
         acc.2.2 + (rs.filterMap (fun r =>
           if jsTruthyQ r.confidence then r.confidence else none)).length) := by
  induction rs with
  | nil => intro acc; simp
  | cons r rs ih =>
    intro acc
    simp only [List.foldl_cons, List.filterMap_cons]
    rw [ih (mergeStep acc r)]
    cases hconf : r.confidence with
    | none =>
      simp [mergeStep, jsTruthyQ, hconf]
    | some c =>
      by_cases hc0 : c = 0
      · simp [mergeStep, jsTruthyQ, hconf, hc0]
      · have htr : jsTruthyQ (some c) = true := by
          simp [jsTruthyQ, hc0]
        refine Prod.ext ?_ ?_
        · simp only [mergeStep, hconf, htr, if_true, Option.getD_some,
            List.sum_cons]
          ring
        · simp only [mergeStep, hconf, htr, if_true, List.length_cons]
          omega

/-- The merged word list is the stable `startTime` sort of the concatenation
of the present segments' word lists. -/
theorem mergeResults_words (rs : List TranscriptionResult) :
    (mergeResults rs).words =
      sortWordsByStartTime ((rs.map TranscriptionResult.words).flatten) := by
  have hw := foldl_mergeStep_words rs (mergeInit, 0, 0)
  by_cases hcc : 0 < (rs.foldl mergeStep (mergeInit, 0, 0)).2.2
  · simp only [mergeResults, if_pos hcc]
    show sortWordsByStartTime
      ((rs.foldl mergeStep (mergeInit, 0, 0)).1).words = _
    rw [hw]
    simp [mergeInit]
  · simp only [mergeResults, if_neg hcc]
    show sortWordsByStartTime
      ((rs.foldl mergeStep (mergeInit, 0, 0)).1).words = _
    rw [hw]
    simp [mergeInit]

/-- Claim C10 amended: the merged confidence is the arithmetic mean over the
segments whose confidence is JS-truthy — present AND nonzero; a segment that
reports confidence `0` is excluded from numerator and denominator exactly
like a segment reporting none — and when no segment has a truthy confidence
the merged confidence is `0`. -/
theorem claim_C10_confidence (results : List TranscriptionResult) :
    (mergeResults results).confidence =
      (if 0 < (results.filterMap (fun r =>
           if jsTruthyQ r.confidence then r.confidence else none)).length
       then some ((results.filterMap (fun r =>
           if jsTruthyQ r.confidence then r.confidence else none)).sum /
         ((results.filterMap (fun r =>
           if jsTruthyQ r.confidence then r.confidence else none)).length : ℚ))
       else some 0) := by
  have hc2 := foldl_mergeStep_conf results (mergeInit, 0, 0)
  by_cases hcc : 0 < (results.foldl mergeStep (mergeInit, 0, 0)).2.2
  · have hccL : 0 < (results.filterMap (fun r =>
        if jsTruthyQ r.confidence then r.confidence else none)).length := by
      rw [hc2] at hcc
      simpa using hcc
    rw [if_pos hccL]
    simp only [mergeResults, if_pos hcc]
    show some ((results.foldl mergeStep (mergeInit, 0, 0)).2.1 /
      ((results.foldl mergeStep (mergeInit, 0, 0)).2.2 : ℚ)) = _
    rw [hc2]
    simp
  · have hccL : ¬ 0 < (results.filterMap (fun r =>
        if jsTruthyQ r.confidence then r.confidence else none)).length := by
      intro hpos
      apply hcc
      rw [hc2]
      simpa using hpos
    rw [if_neg hccL]
    simp only [mergeResults, if_neg hcc]
    show ((results.foldl mergeStep (mergeInit, 0, 0)).1).confidence = _
    rw [foldl_mergeStep_confField]
    rfl

/-- Counterexample to claim C10 as stated: a segment reporting confidence
`0` is a segment that reported a confidence value, yet the code's
`if (result.confidence)` truthiness check drops it from both numerator and
denominator: on `cexC10Results` the code yields `4/5` while the spec's
arithmetic mean over reporting segments is `2/5`. -/
theorem claim_C10_counterexample :
    (mergeResults cexC10Results).confidence = some (4/5) ∧
    specMeanConfidence cexC10Results = some (2/5) ∧
    ¬ ((4:ℚ)/5 = 2/5) := by
  refine ⟨?_, ?_, by norm_num⟩
  · norm_num [mergeResults, mergeStep, cexC10Results, mergeInit, jsTruthyQ,
      sortWordsByStartTime]
  · have hfm : cexC10Results.filterMap TranscriptionResult.confidence =
        [0, 4/5] := by
      simp [cexC10Results]
    simp only [specMeanConfidence, hfm]
    norm_num

/-- Claim C3 amended: both providers' `transcribeChunk` DO apply the offset
correction themselves (the merger applies none): each word of the returned
result carries the segment-relative time parsed from the remote response
PLUS the chunk's start offset. -/
theorem claim_C3_offset_applied :
    (∀ (chunk : AudioChunk) (resp : GoogleResponse),
      (googleTranscribeChunk chunk resp).words.length =
        (googleProcessResponse resp).words.length ∧
      ∀ (k : ℕ) (w w0 : WordInfo),
        (googleTranscribeChunk chunk resp).words.get? k = some w →
        (googleProcessResponse resp).words.get? k = some w0 →
        w.word = w0.word ∧ w.startTime = w0.startTime + chunk.startTime ∧
          w.endTime = w0.endTime + chunk.startTime) ∧
    (∀ (chunk : AudioChunk) (resp : VertexResponse),
      (vertexTranscribeChunk chunk resp).words.length =
        (vertexProcessResponse resp).words.length ∧
      ∀ (k : ℕ) (w w0 : WordInfo),
        (vertexTranscribeChunk chunk resp).words.get? k = some w →
        (vertexProcessResponse resp).words.get? k = some w0 →
        w.word = w0.word ∧ w.startTime = w0.startTime + chunk.startTime ∧
          w.endTime = w0.endTime + chunk.startTime) := by
  constructor
  · intro chunk resp
    constructor
    · show ((googleProcessResponse resp).words.map _).length = _
      rw [List.length_map]
    · intro k w w0 hw hw0
      have hmap : (googleTranscribeChunk chunk resp).words.get? k =
          ((googleProcessResponse resp).words.get? k).map
            (fun word => { word with
              startTime := word.startTime + chunk.startTime,
              endTime := word.endTime + chunk.startTime }) := by
        show ((googleProcessResponse resp).words.map _).get? k = _
        rw [List.get?_map]
      rw [hw0, hw] at hmap
      have hwf : w = { w0 with
          startTime := w0.startTime + chunk.startTime,
          endTime := w0.endTime + chunk.startTime } := Option.some.inj hmap
      subst hwf
      exact ⟨rfl, rfl, rfl⟩
  · intro chunk resp
    constructor
    · show ((vertexProcessResponse resp).words.map _).length = _
      rw [List.length_map]
    · intro k w w0 hw hw0
      have hmap : (vertexTranscribeChunk chunk resp).words.get? k =
          ((vertexProcessResponse resp).words.get? k).map
            (fun word => { word with
              startTime := word.startTime + chunk.startTime,
              endTime := word.endTime + chunk.startTime }) := by
        show ((vertexProcessResponse resp).words.map _).get? k = _
        rw [List.get?_map]
      rw [hw0, hw] at hmap
      have hwf : w = { w0 with
          startTime := w0.startTime + chunk.startTime,
          endTime := w0.endTime + chunk.startTime } := Option.some.inj hmap
      subst hwf
      exact ⟨rfl, rfl, rfl⟩

/-- Witness for the amended C3 on the concrete one-word response: the word
parsed at local seconds 2–3 is returned by `transcribeChunk` at 12–13 for a
chunk starting at offset 10. -/
theorem claim_C3_offset_applied_witness :
    ({ word := "hi", startTime := 12, endTime := 13 } : WordInfo).word =
      ({ word := "hi", startTime := 2, endTime := 3 } : WordInfo).word ∧
    ({ word := "hi", startTime := 12, endTime := 13 } :
        WordInfo).startTime =
      ({ word := "hi", startTime := 2, endTime := 3 } :
        WordInfo).startTime + 10 ∧
    ({ word := "hi", startTime := 12, endTime := 13 } : WordInfo).endTime =
      ({ word := "hi", startTime := 2, endTime := 3 } :
        WordInfo).endTime + 10 :=
  (claim_C3_offset_applied.1 { startTime := 10, endTime := 16, index := 0 }
      cexResponse).2 0 _ _
    (by norm_num [googleTranscribeChunk, googleProcessResponse, cexResponse,
        timeToSeconds])
    (by norm_num [googleProcessResponse, cexResponse, timeToSeconds])

/-- Counterexample to claim C3 as stated: for the chunk starting at offset
10, the word's `startTime` in the result of the Google provider's
`transcribeChunk` is 12, while the segment-relative time parsed from the
remote response is 2 — the per-chunk operation does apply an offset
correction. -/
theorem claim_C3_counterexample :
    ((googleTranscribeChunk { startTime := 10, endTime := 16, index := 0 }
        cexResponse).words.map WordInfo.startTime = [12]) ∧
    ((googleProcessResponse cexResponse).words.map
        WordInfo.startTime = [2]) ∧
    ¬ ((12 : ℚ) = 2) := by
  refine ⟨?_, ?_, by norm_num⟩
  · norm_num [googleTranscribeChunk, googleProcessResponse, cexResponse,
      timeToSeconds]
  · norm_num [googleProcessResponse, cexResponse, timeToSeconds]

/-- Claim C4: every word of every successfully transcribed chunk appears in
the merged result with global times equal to its segment-relative times plus
that chunk's start offset. -/
theorem claim_C4_merge_offset
    (succeeded : List (AudioChunk × GoogleResponse))
    (p : AudioChunk × GoogleResponse) (hp : p ∈ succeeded)
    (w : WordInfo) (hw : w ∈ (googleProcessResponse p.2).words) :
    { w with startTime := w.startTime + p.1.startTime,
             endTime := w.endTime + p.1.startTime } ∈
      (mergeResults (succeeded.map (fun q =>
        googleTranscribeChunk q.1 q.2))).words := by
  rw [mergeResults_words]
  unfold sortWordsByStartTime
  rw [List.mem_mergeSort]
  rw [List.mem_flatten]
  refine ⟨(googleTranscribeChunk p.1 p.2).words, ?_, ?_⟩
  · exact List.mem_map_of_mem TranscriptionResult.words
      (List.mem_map_of_mem (fun q => googleTranscribeChunk q.1 q.2) hp)
  · show _ ∈ (googleProcessResponse p.2).words.map _
    exact List.mem_map_of_mem _ hw

/-- Witness for C4: the word at local seconds 2–3 of a successful chunk with
start offset 10 appears in the merged output at global seconds 12–13. -/
theorem claim_C4_merge_offset_witness :
    ({ word := "hi", startTime := (2:ℚ) + 10, endTime := (3:ℚ) + 10 } :
        WordInfo) ∈
      (mergeResults ([(({ startTime := 10, endTime := 16, index := 0 } :
          AudioChunk), cexResponse)].map (fun q =>
        googleTranscribeChunk q.1 q.2))).words :=
  claim_C4_merge_offset
    [({ startTime := 10, endTime := 16, index := 0 }, cexResponse)]
    ({ startTime := 10, endTime := 16, index := 0 }, cexResponse)
    (List.mem_singleton.mpr rfl)
    { word := "hi", startTime := 2, endTime := 3 }
    (by norm_num [googleProcessResponse, cexResponse, timeToSeconds])

/-! ### Retry coordinator lemmas and claim C8 -/

/-- The retry loop makes at most as many attempts as its budget. -/
theorem retryGo_attempts_le (f : ℕ → Option TranscriptionResult) :
    ∀ (remaining retryCount : ℕ),
      (retryGo f retryCount remaining).2 ≤ remaining := by
  intro remaining
  induction remaining with
  | zero => intro rc; simp [retryGo]
  | succ n ih =>
    intro rc
    simp only [retryGo]
    cases f rc with
    | some r => simp
    | none =>
      simp only
      exact Nat.succ_le_succ (ih (rc + 1))

/-- A successful retry outcome is the FIRST success among the attempts. -/
theorem retryGo_first_success (f : ℕ → Option TranscriptionResult) :
    ∀ (remaining retryCount : ℕ) (r : TranscriptionResult),
      (retryGo f retryCount remaining).1 = some r →
      ∃ k < remaining, f (retryCount + k) = some r ∧
        ∀ j < k, f (retryCount + j) = none := by
  intro remaining
  induction remaining with
  | zero => intro rc r h; simp [retryGo] at h
  | succ n ih =>
    intro rc r h
    simp only [retryGo] at h
    cases hf : f rc with
    | some r0 =>
      rw [hf] at h
      simp only [Option.some.injEq] at h
      subst h
      exact ⟨0, Nat.succ_pos n, by simpa using hf, by omega⟩
    | none =>
      rw [hf] at h
      simp only at h
      obtain ⟨k, hk, hsucc, hfirst⟩ := ih (rc + 1) r h
      refine ⟨k + 1, by omega, by rw [show rc + (k + 1) = rc + 1 + k by ring]; exact hsucc, ?_⟩
      intro j hj
      cases j with
      | zero => simpa using hf
      | succ m =>
        rw [show rc + (m + 1) = rc + 1 + m by ring]
        exact hfirst m (by omega)

/-- If every attempt in the budget fails, the retry loop returns nothing. -/
theorem retryGo_exhaust (f : ℕ → Option TranscriptionResult) :
    ∀ (remaining retryCount : ℕ),
      (∀ k < remaining, f (retryCount + k) = none) →
      (retryGo f retryCount remaining).1 = none := by
  intro remaining
  induction remaining with
  | zero => intro rc _; simp [retryGo]
  | succ n ih =>
    intro rc hall
    simp only [retryGo]
    have h0 : f rc = none := by simpa using hall 0 (Nat.succ_pos n)
    rw [h0]
    simp only
    exact ih (rc + 1) (fun k hk => by
      rw [show rc + 1 + k = rc + (k + 1) by ring]
      exact hall (k + 1) (by omega))

/-- The retry pass leaves the table's size unchanged (and, being a total
function into tables, lets no failure escape). -/
theorem retryFailedChunks_length (attempt : ℕ → ℕ → Option TranscriptionResult)
    (options : ProcessingOptions) :
    ∀ (failedIndices : List ℕ) (results : List (Option TranscriptionResult)),
      (retryFailedChunks attempt failedIndices results options).length =
        results.length := by
  intro failedIndices
  induction failedIndices with
  | nil => intro results; rfl
  | cons j rest ih =>
    intro results
    have h0 : retryFailedChunks attempt (j :: rest) results options =
        retryFailedChunks attempt rest
          (match (retryChunk (fun k => attempt j (k + 1))
              (jsOrNat options.maxRetries 3)).1 with
           | some result => results.set j (some result)
           | none => results) options := rfl
    rw [h0]
    cases hout : (retryChunk (fun k => attempt j (k + 1))
        (jsOrNat options.maxRetries 3)).1 with
    | some r =>
      show (retryFailedChunks attempt rest (results.set j (some r))
        options).length = results.length
      rw [ih (results.set j (some r))]
      exact List.length_set results j (some r)
    | none => exact ih results

/-- Slot-level characterisation of the retry pass: a retried index whose
loop succeeded holds the retried result; every other slot is untouched. -/
theorem retryFailedChunks_get (attempt : ℕ → ℕ → Option TranscriptionResult)
    (options : ProcessingOptions) :
    ∀ (failedIndices : List ℕ) (results : List (Option TranscriptionResult))
      (i : ℕ),
      (retryFailedChunks attempt failedIndices results options).get? i =
        if i ∈ failedIndices ∧
            ((retryChunk (fun k => attempt i (k + 1))
              (jsOrNat options.maxRetries 3)).1).isSome ∧
            i < results.length then
          some ((retryChunk (fun k => attempt i (k + 1))
            (jsOrNat options.maxRetries 3)).1)
        else results.get? i := by
  intro failedIndices
  induction failedIndices with
  | nil =>
    intro results i
    simp [retryFailedChunks]
  | cons j rest ih =>
    intro results i
    cases hout : (retryChunk (fun k => attempt j (k + 1))
        (jsOrNat options.maxRetries 3)).1 with
    | none =>
      have h0 : retryFailedChunks attempt (j :: rest) results options =
          retryFailedChunks attempt rest
            (match (retryChunk (fun k => attempt j (k + 1))
                (jsOrNat options.maxRetries 3)).1 with
             | some result => results.set j (some result)
             | none => results) options := rfl
      rw [h0, hout, ih results i]
      by_cases hij : i = j
      · subst hij
        have hA : ¬ ((retryChunk (fun k => attempt i (k + 1))
            (jsOrNat options.maxRetries 3)).1).isSome = true := by
          rw [hout]
          simp
        by_cases hmem : i ∈ rest
        · rw [if_neg (fun hc => hA hc.2.1), if_neg (fun hc => hA hc.2.1)]
        · rw [if_neg (fun hc => hmem hc.1), if_neg (fun hc => hA hc.2.1)]
      · by_cases hmem : i ∈ rest
        · by_cases hAB : ((retryChunk (fun k => attempt i (k + 1))
              (jsOrNat options.maxRetries 3)).1).isSome = true ∧
              i < results.length
          · rw [if_pos ⟨hmem, hAB.1, hAB.2⟩,
              if_pos ⟨List.mem_cons_of_mem j hmem, hAB.1, hAB.2⟩]
          · rw [if_neg (fun hc => hAB ⟨hc.2.1, hc.2.2⟩),
              if_neg (fun hc => hAB ⟨hc.2.1, hc.2.2⟩)]
        · rw [if_neg (fun hc => hmem hc.1), if_neg (fun hc =>
            (List.mem_cons.mp hc.1).elim (fun h => hij h)
              (fun h => hmem h))]
    | some r =>
      have h0 : retryFailedChunks attempt (j :: rest) results options =
          retryFailedChunks attempt rest
            (match (retryChunk (fun k => attempt j (k + 1))
                (jsOrNat options.maxRetries 3)).1 with
             | some result => results.set j (some result)
             | none => results) options := rfl
      rw [h0, hout, ih (results.set j (some r)) i]
      simp only [List.length_set]
      by_cases hij : i = j
      · subst hij
        have hA : ((retryChunk (fun k => attempt i (k + 1))
            (jsOrNat options.maxRetries 3)).1).isSome = true := by
          rw [hout]
          rfl
        by_cases hlen : i < results.length
        · by_cases hmem : i ∈ rest
          · rw [if_pos ⟨hmem, hA, hlen⟩,
              if_pos ⟨List.mem_cons_self i rest, hA, hlen⟩]
          · rw [if_neg (fun hc => hmem hc.1),
              if_pos ⟨List.mem_cons_self i rest, hA, hlen⟩,
              List.get?_set_eq_of_lt (some r) hlen, hout]
        · rw [if_neg (fun hc => hlen hc.2.2), if_neg (fun hc => hlen hc.2.2),
            List.set_eq_of_length_le (Nat.le_of_not_lt hlen)]
      · have hset : (results.set j (some r)).get? i = results.get? i :=
          List.get?_set_ne (some r) results (Ne.symm hij)
        by_cases hmem : i ∈ rest
        · by_cases hAB : ((retryChunk (fun k => attempt i (k + 1))
              (jsOrNat options.maxRetries 3)).1).isSome = true ∧
              i < results.length
          · rw [if_pos ⟨hmem, hAB.1, hAB.2⟩,
              if_pos ⟨List.mem_cons_of_mem j hmem, hAB.1, hAB.2⟩]
          · rw [if_neg (fun hc => hAB ⟨hc.2.1, hc.2.2⟩),
              if_neg (fun hc => hAB ⟨hc.2.1, hc.2.2⟩)]
            exact hset
        · rw [if_neg (fun hc => hmem hc.1), if_neg (fun hc =>
            (List.mem_cons.mp hc.1).elim (fun h => hij h)
              (fun h => hmem h))]
          exact hset

/-- Claim C8: for each failed chunk index the retry pass makes at most
`maxRetries` (`= options.maxRetries || 3`) attempts; the first successful
attempt is written into the results table at that index and no earlier
attempt succeeded; if all attempts fail the slot keeps its previous (absent)
value; and the pass always returns a table — of unchanged size — rather than
propagating any error. -/
theorem claim_C8_retry (attempt : ℕ → ℕ → Option TranscriptionResult)
    (options : ProcessingOptions) (failedIndices : List ℕ)
    (results : List (Option TranscriptionResult)) (i : ℕ)
    (hi : i ∈ failedIndices) (hlen : i < results.length) :
    (retryChunk (fun k => attempt i (k + 1))
        (jsOrNat options.maxRetries 3)).2 ≤ jsOrNat options.maxRetries 3 ∧
    (∀ r, (retryChunk (fun k => attempt i (k + 1))
        (jsOrNat options.maxRetries 3)).1 = some r →
      (∃ k < jsOrNat options.maxRetries 3, attempt i (k + 1) = some r ∧
        ∀ j < k, attempt i (j + 1) = none) ∧
      (retryFailedChunks attempt failedIndices results options).get? i =
        some (some r)) ∧
    ((∀ k < jsOrNat options.maxRetries 3, attempt i (k + 1) = none) →
      (retryFailedChunks attempt failedIndices results options).get? i =
        results.get? i) ∧
    (retryFailedChunks attempt failedIndices results options).length =
      results.length := by
  refine ⟨retryGo_attempts_le _ _ _, ?_, ?_,
    retryFailedChunks_length attempt options failedIndices results⟩
  · intro r hr
    constructor
    · obtain ⟨k, hk, hs, hf⟩ := retryGo_first_success _ _ 0 r hr
      exact ⟨k, hk, by simpa using hs, fun j hj => by simpa using hf j hj⟩
    · rw [retryFailedChunks_get attempt options failedIndices results i,
        if_pos ⟨hi, by rw [hr]; rfl, hlen⟩, hr]
  · intro hall
    have hnone : (retryChunk (fun k => attempt i (k + 1))
        (jsOrNat options.maxRetries 3)).1 = none :=
      retryGo_exhaust _ _ 0 (fun k hk => by simpa using hall k hk)
    rw [retryFailedChunks_get attempt options failedIndices results i,
      if_neg (fun hc => by rw [hnone] at hc; simp at hc)]

/-- Witness for C8 with `maxRetries = 2` and a provider that fails retry
attempt 1 and succeeds on retry attempt 2 for chunk 0. -/
theorem claim_C8_retry_witness :
    (retryChunk (fun k => if k + 1 = 2 then
        some ({ transcript := "ok" } : TranscriptionResult) else none) 2).2 ≤
      2 ∧
    (∀ r, (retryChunk (fun k => if k + 1 = 2 then
        some ({ transcript := "ok" } : TranscriptionResult) else none) 2).1 =
        some r →
      (∃ k < 2, (if k + 1 = 2 then
          some ({ transcript := "ok" } : TranscriptionResult) else none) =
            some r ∧
        ∀ j < k, (if j + 1 = 2 then
          some ({ transcript := "ok" } : TranscriptionResult) else none) =
            none) ∧
      (retryFailedChunks (fun _ j => if j = 2 then
          some ({ transcript := "ok" } : TranscriptionResult) else none)
        [0] ([none] : List (Option TranscriptionResult))
        { maxRetries := some 2 }).get? 0 = some (some r)) ∧
    ((∀ k < 2, (if k + 1 = 2 then
        some ({ transcript := "ok" } : TranscriptionResult) else none) =
          none) →
      (retryFailedChunks (fun _ j => if j = 2 then
          some ({ transcript := "ok" } : TranscriptionResult) else none)
        [0] ([none] : List (Option TranscriptionResult))
        { maxRetries := some 2 }).get? 0 =
        ([none] : List (Option TranscriptionResult)).get? 0) ∧
    (retryFailedChunks (fun _ j => if j = 2 then
        some ({ transcript := "ok" } : TranscriptionResult) else none)
      [0] ([none] : List (Option TranscriptionResult))
      { maxRetries := some 2 }).length =
      ([none] : List (Option TranscriptionResult)).length :=
  claim_C8_retry
    (fun _ j => if j = 2 then
      some ({ transcript := "ok" } : TranscriptionResult) else none)
    { maxRetries := some 2 } [0] [none] 0 (by simp) (by norm_num)

/-! ### Dispatcher lemmas and claims C9, C1 -/

/-- When every initial attempt fails, the dispatch sweep leaves every slot
of the results table absent. -/
theorem dispatchChunks_all_none (f : ℕ → Option TranscriptionResult)
    (hf : ∀ i, f i = none) (n mc : ℕ) :
    ∀ x ∈ (dispatchChunks f n mc).1, x = none := by
  have hstep : ∀ (batch : List ℕ) (L : List (Option TranscriptionResult)),
      (∀ x ∈ L, x = none) →
      ∀ x ∈ batch.foldl (fun res i => res.set i (f i)) L, x = none := by
    intro batch
    induction batch with
    | nil => intro L hL; exact hL
    | cons b bs ih =>
      intro L hL
      simp only [List.foldl_cons]
      refine ih (L.set b (f b)) ?_
      intro x hx
      rcases List.mem_or_eq_of_mem_set hx with hx | hx
      · exact hL x hx
      · rw [hx, hf b]
  have hmain : ∀ (batches : List (List ℕ))
      (acc : List (Option TranscriptionResult) × List ℕ),
      (∀ x ∈ acc.1, x = none) →
      ∀ x ∈ (batches.foldl (fun acc batch =>
          (batch.foldl (fun res i => res.set i (f i)) acc.1,
           acc.2 ++ batch.filter (fun i => (f i).isNone))) acc).1,
        x = none := by
    intro batches
    induction batches with
    | nil => intro acc hacc; exact hacc
    | cons b bs ih =>
      intro acc hacc
      simp only [List.foldl_cons]
      exact ih _ (hstep b acc.1 hacc)
  exact hmain (batchIndices n mc) (List.replicate n none, [])
    (fun x hx => List.eq_of_mem_replicate hx)

/-- With a universally failing provider the retry pass changes nothing. -/
theorem retryFailedChunks_all_fail
    (attempt : ℕ → ℕ → Option TranscriptionResult)
    (hf : ∀ i k, attempt i k = none) (options : ProcessingOptions) :
    ∀ (failed : List ℕ) (results : List (Option TranscriptionResult)),
      retryFailedChunks attempt failed results options = results := by
  intro failed
  induction failed with
  | nil => intro results; rfl
  | cons j rest ih =>
    intro results
    have hnone : (retryChunk (fun k => attempt j (k + 1))
        (jsOrNat options.maxRetries 3)).1 = none :=
      retryGo_exhaust _ _ 0 (fun k _ => hf j (0 + k + 1))
    have h0 : retryFailedChunks attempt (j :: rest) results options =
        retryFailedChunks attempt rest
          (match (retryChunk (fun k => attempt j (k + 1))
              (jsOrNat options.maxRetries 3)).1 with
           | some result => results.set j (some result)
           | none => results) options := rfl
    rw [h0, hnone]
    exact ih results

/-- When every chunk fails on every attempt, `transcribeChunks` throws
`'All chunks failed to transcribe'`. -/
theorem transcribeChunks_all_fail
    (attempt : ℕ → ℕ → Option TranscriptionResult)
    (singleton : ProcessingOptions) (chunks : List AudioChunk)
    (hfail : ∀ i k, attempt i k = none) :
    transcribeChunks attempt singleton chunks =
      Except.error TranscribeError.allChunksFailed := by
  simp only [transcribeChunks]
  set D := dispatchChunks (fun i => attempt i 0) chunks.length
    (jsOrNat singleton.maxConcurrentChunks 3) with hD
  have hdisp : ∀ x ∈ D.1, x = none := by
    rw [hD]
    exact dispatchChunks_all_none _ (fun i => hfail i 0) _ _
  have hres : ∀ x ∈ (if jsTruthyBool singleton.retryFailedChunks &&
      !D.2.isEmpty then retryFailedChunks attempt D.2 D.1 singleton
      else D.1), x = none := by
    by_cases hc : (jsTruthyBool singleton.retryFailedChunks &&
        !D.2.isEmpty) = true
    · rw [if_pos hc, retryFailedChunks_all_fail attempt hfail singleton]
      exact hdisp
    · rw [if_neg hc]
      exact hdisp
  have hempty : (if jsTruthyBool singleton.retryFailedChunks &&
      !D.2.isEmpty then retryFailedChunks attempt D.2 D.1 singleton
      else D.1).filterMap id = [] :=
    List.filterMap_eq_nil_iff.mpr (fun a ha => hres a ha)
  rw [hempty]
  rfl

/-- Claim C9: if every chunk attempt (initial and retry) fails, the pipeline
fails with the all-chunks-failed error, returns no merged result, and writes
no output file. -/
theorem claim_C9_all_fail (singleton processingOptions : ProcessingOptions)
    (duration : ℚ) (whole : Option TranscriptionResult)
    (attempt : ℕ → ℕ → Option TranscriptionResult) (fuel : ℕ)
    (chunks : List AudioChunk)
    (hfail : ∀ i k, attempt i k = none)
    (hdur : jsOrQ (mergeProcessingOptions singleton
      processingOptions).chunkDuration 59 < duration)
    (hsplit : splitAudioIntoChunks duration
      ((mergeProcessingOptions singleton
        processingOptions).chunkDuration.getD 59)
      ((mergeProcessingOptions singleton processingOptions).overlap.getD 1)
      fuel = some chunks) :
    transcribeFile singleton processingOptions duration whole attempt fuel =
      some (Except.error TranscribeError.allChunksFailed, []) := by
  have hchunks := transcribeChunks_all_fail attempt singleton chunks hfail
  simp only [transcribeFile]
  rw [if_pos hdur]
  simp only [hsplit, hchunks]

/-- Claim C1: the chunk dispatch and retry stages read their options from
the process-wide `Config` singleton, not from the `processingOptions`
argument of `transcribeFile`.  Hence (i) two calls whose argument differs
only in `maxConcurrentChunks`, `retryFailedChunks` or `maxRetries` — e.g.
the CLI's `--max-concurrent` and `--no-retry` flags — behave identically;
(ii) with the singleton in its default state the effective batch size is 3;
and (iii) with the singleton in its default state the retry branch is dead:
the outcome never depends on any retry attempt. -/
theorem claim_C1_singleton_options :
    (∀ (singleton p1 p2 : ProcessingOptions) (duration : ℚ)
        (whole : Option TranscriptionResult)
        (attempt : ℕ → ℕ → Option TranscriptionResult) (fuel : ℕ),
      p1.chunkDuration = p2.chunkDuration →
      p1.overlap = p2.overlap →
      p1.outputFormat = p2.outputFormat →
      p1.outputPath = p2.outputPath →
      p1.tempDir = p2.tempDir →
      p1.verbose = p2.verbose →
      transcribeFile singleton p1 duration whole attempt fuel =
        transcribeFile singleton p2 duration whole attempt fuel) ∧
    jsOrNat defaultProcessingOptions.maxConcurrentChunks 3 = 3 ∧
    jsTruthyBool defaultProcessingOptions.retryFailedChunks = false ∧
    (∀ (attempt attempt' : ℕ → ℕ → Option TranscriptionResult)
        (chunks : List AudioChunk),
      (∀ i, attempt i 0 = attempt' i 0) →
      transcribeChunks attempt defaultProcessingOptions chunks =
        transcribeChunks attempt' defaultProcessingOptions chunks) := by
  refine ⟨?_, rfl, rfl, ?_⟩
  · intro singleton p1 p2 duration whole attempt fuel h1 h2 h3 h4 h5 h6
    have hcd : (mergeProcessingOptions singleton p1).chunkDuration =
        (mergeProcessingOptions singleton p2).chunkDuration := by
      simp [mergeProcessingOptions, h1]
    have hov : (mergeProcessingOptions singleton p1).overlap =
        (mergeProcessingOptions singleton p2).overlap := by
      simp [mergeProcessingOptions, h2]
    have hop : (mergeProcessingOptions singleton p1).outputPath =
        (mergeProcessingOptions singleton p2).outputPath := by
      simp [mergeProcessingOptions, h4]
    simp only [transcribeFile, hcd, hov, hop]
  · intro attempt attempt' chunks h
    have hfun : (fun i => attempt i 0) = (fun i => attempt' i 0) := funext h
    simp [transcribeChunks, hfun, defaultProcessingOptions, jsTruthyBool]

/-- Witness for C1: concrete runs differing only in the dispatch/retry
fields (as the CLI flags would set them) coincide, and under the default
singleton the dispatch outcome ignores all retry attempts. -/
theorem claim_C1_singleton_options_witness :
    transcribeFile defaultProcessingOptions
        { maxConcurrentChunks := some 5, retryFailedChunks := some true,
          maxRetries := some 7 } 100 none (fun _ _ => none) 3 =
      transcribeFile defaultProcessingOptions
        { maxConcurrentChunks := some 1, retryFailedChunks := some false,
          maxRetries := some 1 } 100 none (fun _ _ => none) 3 ∧
    jsOrNat defaultProcessingOptions.maxConcurrentChunks 3 = 3 ∧
    jsTruthyBool defaultProcessingOptions.retryFailedChunks = false ∧
    transcribeChunks (fun _ _ => none) defaultProcessingOptions
        [{ startTime := 0, endTime := 59, index := 0 }] =
      transcribeChunks (fun _ k => if k = 0 then none else
          some { transcript := "r" }) defaultProcessingOptions
        [{ startTime := 0, endTime := 59, index := 0 }] :=
  ⟨claim_C1_singleton_options.1 defaultProcessingOptions _ _ 100 none _ 3
      rfl rfl rfl rfl rfl rfl,
   claim_C1_singleton_options.2.1,
   claim_C1_singleton_options.2.2.1,
   claim_C1_singleton_options.2.2.2 _ _ _ (fun _ => rfl)⟩

/-- Witness for C9: with a provider failing every attempt, duration 100 and
the default singleton, the pipeline returns the all-chunks-failed error and
writes nothing. -/
theorem claim_C9_all_fail_witness :
    transcribeFile defaultProcessingOptions {} 100 none (fun _ _ => none)
        3 = some (Except.error TranscribeError.allChunksFailed, []) :=
  claim_C9_all_fail defaultProcessingOptions {} 100 none (fun _ _ => none) 3
    [{ startTime := 0, endTime := 59, index := 0 },
     { startTime := 57, endTime := 100, index := 1 }]
    (fun _ _ => rfl)
    (by norm_num [mergeProcessingOptions, defaultProcessingOptions,
      jsSpread, jsOrQ])
    (by norm_num [mergeProcessingOptions, defaultProcessingOptions,
      jsSpread, splitAudioIntoChunks, splitLoop])

end SpeechToText
